import Mathlib

/-!
# Verification of the OHLCV pagination engine of `crypto_fetcher`

This file is a shallow embedding of `src/crypto_fetcher/fetcher.py`:
the `CryptoFetcher` class's OHLCV fetching logic (single-page path,
paginated latest mode, paginated until mode, the page-size-reduction
retry, the `until` filter, and the candle conversion).

The exchange connector (`ccxt`'s `exchange.fetch_ohlcv`) is modelled as
an oracle: a function from the index of the call (how many page fetches
were issued before it) and the parameters actually passed (`limit`, and
`since` when present) to either a list of raw candles or an error.  The
`iso8601` helper of the connector is modelled as an opaque-to-us function
argument `Int → String`.  The Python `while` loops are modelled with an
explicit fuel argument; the public wrappers pass `total_limit + 2` fuel,
which is shown sufficient inside every proof (each iteration either
consumes at least one unit of `remaining` or is the unique retry step).
-/

namespace CryptoFetcher

/-- A raw candle as returned by the exchange: `candle[0]` is the
timestamp in milliseconds, followed by open, high, low, close, volume.
Prices and volumes are carried as integers; the engine never computes
with them, it only copies them. -/
structure RawCandle where
  ts : Int
  o : Int
  hi : Int
  lo : Int
  cl : Int
  vol : Int
deriving Repr, DecidableEq

/-- The `OHLCVData` record shape built by `_convert_ohlcv_to_dict`. -/
structure OHLCVData where
  timestamp : Int
  datetime : String
  open_ : Int
  high : Int
  low : Int
  close : Int
  volume : Int
deriving Repr, DecidableEq

/-- The parameters of one call to the connector's `fetch_ohlcv`
(`**params` in the Python code): the requested `limit`, and `since`
when the key is present in `params`. -/
structure PageCall where
  limit : Nat
  since : Option Int
deriving Repr, DecidableEq

/-- The exchange connector: given the index of the call (0 for the first
page fetch of a request) and the parameters, returns raw candles or
fails.  Errors carry no payload (the engine only catches-and-rethrows). -/
abbrev Oracle := Nat → PageCall → Except Unit (List RawCandle)

/-- Source `CryptoFetcher.EXCHANGE_LIMITS`. -/
def EXCHANGE_LIMITS : List (String × Nat) :=
  [("binance", 1000), ("coinbase", 300), ("kraken", 720), ("okx", 300),
   ("kucoin", 1500), ("bybit", 200), ("huobi", 2000)]

/-- Source `CryptoFetcher.TIMEFRAME_MS`. -/
def TIMEFRAME_MS : List (String × Nat) :=
  [("1m", 60 * 1000), ("5m", 5 * 60 * 1000), ("15m", 15 * 60 * 1000),
   ("30m", 30 * 60 * 1000), ("1h", 60 * 60 * 1000), ("4h", 4 * 60 * 60 * 1000),
   ("1d", 24 * 60 * 60 * 1000), ("1w", 7 * 24 * 60 * 60 * 1000)]

/-- Source `_get_timeframe_ms`: dictionary lookup with a default of one hour. -/
def getTimeframeMs (timeframe : String) : Nat :=
  (TIMEFRAME_MS.lookup timeframe).getD (60 * 60 * 1000)

/-- Source `_get_exchange_max_limit`: dictionary lookup with a default of 200. -/
def getExchangeMaxLimit (exchange_name : String) : Nat :=
  (EXCHANGE_LIMITS.lookup exchange_name).getD 200

/-- Source `_filter_by_until`: keep the candles with `candle[0] <= until`. -/
def filterByUntil (ohlcv : List RawCandle) (untilT : Int) : List RawCandle :=
  ohlcv.filter (fun candle => candle.ts ≤ untilT)

/-- Source `_convert_ohlcv_to_dict`: map each raw candle to the record shape,
with `datetime := exchange.iso8601(candle[0])`. -/
def convertOhlcvToDict (iso8601 : Int → String) (ohlcv : List RawCandle) : List OHLCVData :=
  ohlcv.map (fun candle =>
    { timestamp := candle.ts, datetime := iso8601 candle.ts,
      open_ := candle.o, high := candle.hi, low := candle.lo,
      close := candle.cl, volume := candle.vol })

/-- The `params` built by `_fetch_single_page`: `since` is added to the
params only when it is truthy in Python, so `None` and `0` both omit it
(a negative integer is truthy and is passed through). -/
def sinceParam : Option Int → Option Int
  | none => none
  | some s => if s = 0 then none else some s

/-- The call issued by `_fetch_single_page(page_limit, since)`. -/
def fetchSinglePageCall (page_limit : Nat) (since : Option Int) : PageCall :=
  { limit := page_limit, since := sinceParam since }

/-- Source `_retry_with_smaller_limit`: retry exactly when `page_limit > 50`. -/
def retryWithSmallerLimit (page_limit : Nat) : Bool :=
  50 < page_limit

/-- Helper: prepend the issued call to the trace of the rest of the run. -/
def consTrace (call : PageCall) (rest : List PageCall × Except Unit (List RawCandle)) :
    List PageCall × Except Unit (List RawCandle) :=
  (call :: rest.1, rest.2)

/-- Source `_fetch_paginated_latest`: the `while remaining > 0` loop.  Arguments
after the fuel: index of the next oracle call, `max_limit`, `remaining`,
`all_data`, `current_since`.  On a page-fetch error the loop retries with
`max_limit = 50` when `page_limit > 50` and re-raises otherwise; on an
empty page it breaks; otherwise it extends `all_data` with the page,
decreases `remaining` by the page length, and sets `current_since` to
the first returned timestamp minus one timeframe duration. -/
def fetchPaginatedLatestLoop (oracle : Oracle) (timeframe_ms : Nat) :
    Nat → Nat → Nat → Nat → List RawCandle → Option Int →
    List PageCall × Except Unit (List RawCandle)
  | 0, _, _, _, _, _ => ([], Except.error ())
  | fuel + 1, idx, max_limit, remaining, all_data, current_since =>
    if remaining = 0 then ([], Except.ok all_data)
    else
      match oracle idx (fetchSinglePageCall (min remaining max_limit) current_since) with
      | Except.error e =>
        if retryWithSmallerLimit (min remaining max_limit) then
          consTrace (fetchSinglePageCall (min remaining max_limit) current_since)
            (fetchPaginatedLatestLoop oracle timeframe_ms fuel (idx + 1) 50
              remaining all_data current_since)
        else
          ([fetchSinglePageCall (min remaining max_limit) current_since], Except.error e)
      | Except.ok [] =>
        ([fetchSinglePageCall (min remaining max_limit) current_since], Except.ok all_data)
      | Except.ok (c :: rest) =>
        consTrace (fetchSinglePageCall (min remaining max_limit) current_since)
          (fetchPaginatedLatestLoop oracle timeframe_ms fuel (idx + 1) max_limit
            (remaining - (c :: rest).length) (all_data ++ c :: rest)
            (some (c.ts - (timeframe_ms : Int))))

/-- Source `_fetch_paginated_until`: the `while remaining > 0 and current_until > 0`
loop.  Arguments after the fuel: index, `max_limit`, `remaining`,
`all_data`, `current_until`.  Each iteration computes
`since_time = current_until - page_limit * timeframe_ms`, fetches through
`_fetch_single_page`, breaks on an empty page or an empty filtered page,
and otherwise extends `all_data` with the filtered page and sets
`current_until` to the first kept timestamp minus one timeframe. -/
def fetchPaginatedUntilLoop (oracle : Oracle) (timeframe_ms : Nat) (untilT : Int) :
    Nat → Nat → Nat → Nat → List RawCandle → Int →
    List PageCall × Except Unit (List RawCandle)
  | 0, _, _, _, _, _ => ([], Except.error ())
  | fuel + 1, idx, max_limit, remaining, all_data, current_until =>
    if remaining = 0 ∨ current_until ≤ 0 then ([], Except.ok all_data)
    else
      match oracle idx (fetchSinglePageCall (min remaining max_limit)
          (some (current_until - ((min remaining max_limit) * timeframe_ms : Nat)))) with
      | Except.error e =>
        if retryWithSmallerLimit (min remaining max_limit) then
          consTrace (fetchSinglePageCall (min remaining max_limit)
              (some (current_until - ((min remaining max_limit) * timeframe_ms : Nat))))
            (fetchPaginatedUntilLoop oracle timeframe_ms untilT fuel (idx + 1) 50
              remaining all_data current_until)
        else
          ([fetchSinglePageCall (min remaining max_limit)
              (some (current_until - ((min remaining max_limit) * timeframe_ms : Nat)))],
           Except.error e)
      | Except.ok [] =>
        ([fetchSinglePageCall (min remaining max_limit)
            (some (current_until - ((min remaining max_limit) * timeframe_ms : Nat)))],
         Except.ok all_data)
      | Except.ok (c :: rest) =>
        match filterByUntil (c :: rest) untilT with
        | [] =>
          ([fetchSinglePageCall (min remaining max_limit)
              (some (current_until - ((min remaining max_limit) * timeframe_ms : Nat)))],
           Except.ok all_data)
        | f :: rest_f =>
          consTrace (fetchSinglePageCall (min remaining max_limit)
              (some (current_until - ((min remaining max_limit) * timeframe_ms : Nat))))
            (fetchPaginatedUntilLoop oracle timeframe_ms untilT fuel (idx + 1) max_limit
              (remaining - (f :: rest_f).length) (all_data ++ f :: rest_f)
              (f.ts - (timeframe_ms : Int)))

/-- Source `_fetch_ohlcv_paginated`: dispatch on the truthiness of `until`
(`None` and `0` both select the latest-mode loop), then convert the
accumulated raw candles.  `all_data` starts empty and `remaining` starts
at `total_limit`; the fuel `total_limit + 2` is enough for every run. -/
def fetchOhlcvPaginated (oracle : Oracle) (iso8601 : Int → String)
    (exchange_id timeframe : String) (total_limit : Nat) (untilT : Option Int) :
    List PageCall × Except Unit (List OHLCVData) :=
  match untilT with
  | some u =>
    if u = 0 then
      ((fetchPaginatedLatestLoop oracle (getTimeframeMs timeframe) (total_limit + 2) 0
          (getExchangeMaxLimit exchange_id) total_limit [] none).1,
       (fetchPaginatedLatestLoop oracle (getTimeframeMs timeframe) (total_limit + 2) 0
          (getExchangeMaxLimit exchange_id) total_limit [] none).2.map
         (convertOhlcvToDict iso8601))
    else
      ((fetchPaginatedUntilLoop oracle (getTimeframeMs timeframe) u (total_limit + 2) 0
          (getExchangeMaxLimit exchange_id) total_limit [] u).1,
       (fetchPaginatedUntilLoop oracle (getTimeframeMs timeframe) u (total_limit + 2) 0
          (getExchangeMaxLimit exchange_id) total_limit [] u).2.map
         (convertOhlcvToDict iso8601))
  | none =>
    ((fetchPaginatedLatestLoop oracle (getTimeframeMs timeframe) (total_limit + 2) 0
        (getExchangeMaxLimit exchange_id) total_limit [] none).1,
     (fetchPaginatedLatestLoop oracle (getTimeframeMs timeframe) (total_limit + 2) 0
        (getExchangeMaxLimit exchange_id) total_limit [] none).2.map
       (convertOhlcvToDict iso8601))

/-- Source `fetch_ohlcv` after exchange validation: if `limit > max_limit` use
pagination; otherwise the single-page path.  In the single-page path a
truthy `until` selects mode 2 (`params = {limit, since}` with
`since = until - limit * timeframe_ms`, filtered by `until` afterwards),
and a falsy `until` (absent or `0`) selects mode 1
(`params = {limit}`, no `since` key). -/
def fetch_ohlcv (oracle : Oracle) (iso8601 : Int → String)
    (exchange_name symbol timeframe : String) (limit : Nat) (untilT : Option Int) :
    List PageCall × Except Unit (List OHLCVData) :=
  if getExchangeMaxLimit exchange_name < limit then
    fetchOhlcvPaginated oracle iso8601 exchange_name timeframe limit untilT
  else
    match untilT with
    | some u =>
      if u = 0 then
        ([{ limit := limit, since := none }],
         (oracle 0 { limit := limit, since := none }).map (convertOhlcvToDict iso8601))
      else
        ([{ limit := limit, since := some (u - (limit * getTimeframeMs timeframe : Nat)) }],
         (oracle 0 { limit := limit, since := some (u - (limit * getTimeframeMs timeframe : Nat)) }).map
           (fun ohlcv => convertOhlcvToDict iso8601 (filterByUntil ohlcv u)))
    | none =>
      ([{ limit := limit, since := none }],
       (oracle 0 { limit := limit, since := none }).map (convertOhlcvToDict iso8601))

/-- The data of a successful result (`[]` for an error). -/
def okData : Except Unit (List OHLCVData) → List OHLCVData
  | Except.ok l => l
  | Except.error _ => []

/-- Whether a result is a success. -/
def isOkResult : Except Unit (List OHLCVData) → Bool
  | Except.ok _ => true
  | Except.error _ => false

/-- Modelled from the spec: the property asserted by the invariant —
timestamps strictly ascending with uniform spacing `d` (each consecutive
pair differs by exactly `d`). -/
def ascSpacedB (d : Int) : List Int → Bool
  | [] => true
  | [_] => true
  | a :: b :: t => (b == a + d) && ascSpacedB d (b :: t)

/-- Modelled from the spec: the page sizes the spec predicts for a
paginated request — repeatedly `min remaining maxLimit` until
`remaining` is exhausted (fuelled helper). -/
def specPageSizesAux : Nat → Nat → Nat → List Nat
  | 0, _, _ => []
  | fuel + 1, remaining, maxLimit =>
    if remaining = 0 then []
    else min remaining maxLimit :: specPageSizesAux fuel (remaining - min remaining maxLimit) maxLimit

/-- Modelled from the spec: the predicted page-size sequence. -/
def specPageSizes (remaining maxLimit : Nat) : List Nat :=
  specPageSizesAux remaining remaining maxLimit

/-- A trivial oracle and iso8601 used by concrete witnesses. -/
def zeroOracle : Oracle := fun _ _ => Except.ok []

/-- A constant iso8601 stand-in used by concrete witnesses. -/
def defaultIso : Int → String := fun _ => "t"

/-- An always-failing oracle, used by the C6 witness. -/
def errOracle : Oracle := fun _ _ => Except.error ()

/-- Oracle for the C3 counterexample: the first (latest) page holds one
candle at timestamp 3600000000; after that, no more data. -/
def c3Oracle : Oracle := fun idx _ =>
  if idx = 0 then Except.ok [⟨3600000000, 0, 0, 0, 0, 0⟩] else Except.ok []

/-- Oracle for the C7 counterexample: the first page returns a single
candle (fewer than the 200 requested); later pages are empty. -/
def c7Oracle : Oracle := fun idx _ =>
  if idx = 0 then Except.ok [⟨720000000, 0, 0, 0, 0, 0⟩] else Except.ok []

/-- Oracle for the C5 counterexample: every page fetch returns 300
candles regardless of the requested limit. -/
def c5Oracle : Oracle := fun _ _ =>
  Except.ok (List.replicate 300 ⟨0, 0, 0, 0, 0, 0⟩)

/-- An ascending, uniformly spaced page of `n` candles starting at `t0`. -/
def ascPage (t0 d : Int) (n : Nat) : List RawCandle :=
  (List.range n).map (fun k => ⟨t0 + k * d, 0, 0, 0, 0, 0⟩)

/-- Oracle for the C1 counterexample.  It honours the Page Fetcher
contract: the first call (no `since`) returns the 200 most recent
candles, ascending and uniformly spaced; the second call
(`since = 716400000`, `limit = 1`) returns the single candle at exactly
`since`. -/
def c1Oracle : Oracle := fun idx _ =>
  if idx = 0 then Except.ok (ascPage 720000000 3600000 200)
  else Except.ok [⟨716400000, 0, 0, 0, 0, 0⟩]

/-- A compliant oracle for the C8 witness: every call is answered with
exactly the requested number of candles. -/
def c8Oracle : Oracle := fun _ call =>
  Except.ok (List.replicate call.limit ⟨0, 0, 0, 0, 0, 0⟩)

/-- Oracle for the C4 witness: one candle at timestamp 3600000. -/
def c4Oracle : Oracle := fun _ _ => Except.ok [⟨3600000, 1, 2, 3, 4, 5⟩]

/-- Oracle for the C1-amended witness: three ascending, uniformly spaced
candles. -/
def c1wOracle : Oracle := fun _ _ => Except.ok (ascPage 0 3600000 3)

/-- Oracle for the C7-amended witness: a page whose single candle lies
past the requested `until` bound. -/
def lateOracle : Oracle := fun _ _ => Except.ok [⟨9999999999, 0, 0, 0, 0, 0⟩]

end CryptoFetcher

namespace CryptoFetcher

/-- Every configured (or defaulted) exchange page limit is positive. -/
lemma maxLimit_pos (ex : String) : 0 < getExchangeMaxLimit ex := by
  unfold getExchangeMaxLimit EXCHANGE_LIMITS
  simp only [List.lookup]
  repeat' split
  all_goals simp

/-- Every configured (or defaulted) timeframe duration is positive. -/
lemma tfms_pos (tf : String) : 0 < getTimeframeMs tf := by
  unfold getTimeframeMs TIMEFRAME_MS
  simp only [List.lookup]
  repeat' split
  all_goals simp

/-- The fuel of `specPageSizesAux` is irrelevant once it covers
`remaining`. -/
lemma specPageSizesAux_irrel :
    ∀ f f' r m, 0 < m → r ≤ f → r ≤ f' →
      specPageSizesAux f r m = specPageSizesAux f' r m := by
  intro f
  induction f with
  | zero =>
    intro f' r m hm hrf hrf'
    have hr : r = 0 := by omega
    cases f' <;> simp [specPageSizesAux, hr]
  | succ f ihf =>
    intro f' r m hm hrf hrf'
    cases f' with
    | zero =>
      have hr : r = 0 := by omega
      simp [specPageSizesAux, hr]
    | succ f' =>
      by_cases hr : r = 0
      · simp [specPageSizesAux, hr]
      · simp only [specPageSizesAux, hr, if_false]
        congr 1
        exact ihf f' (r - min r m) m hm (by omega) (by omega)

/-- Unfolding equation for `specPageSizes`. -/
lemma specPageSizes_eq (r m : Nat) (hm : 0 < m) :
    specPageSizes r m =
      if r = 0 then [] else min r m :: specPageSizes (r - min r m) m := by
  by_cases hr : r = 0
  · simp [specPageSizes, specPageSizesAux, hr]
  · obtain ⟨r', rfl⟩ : ∃ r', r = r' + 1 := ⟨r - 1, by omega⟩
    simp only [specPageSizes, specPageSizesAux, hr, if_false]
    congr 1
    exact specPageSizesAux_irrel r' (r' + 1 - min (r' + 1) m)
      (r' + 1 - min (r' + 1) m) m hm (by omega) (le_refl _)

/-- The predicted number of pages is the ceiling of
`remaining / maxLimit`. -/
lemma specPageSizes_length (m : Nat) (hm : 0 < m) :
    ∀ f r, r ≤ f → (specPageSizes r m).length = (r + m - 1) / m := by
  intro f
  induction f with
  | zero =>
    intro r hr
    have h0 : r = 0 := by omega
    subst h0
    simp [specPageSizes, specPageSizesAux]
    exact (Nat.div_eq_of_lt (by omega)).symm
  | succ f ih =>
    intro r hr
    rw [specPageSizes_eq r m hm]
    by_cases hr0 : r = 0
    · subst hr0
      simp
      exact (Nat.div_eq_of_lt (by omega)).symm
    · simp only [hr0, if_false, List.length_cons]
      rw [ih (r - min r m) (by omega)]
      have h1 : r + m - 1 = (r - 1) + m := by omega
      rw [h1, Nat.add_div_right _ hm]
      congr 1
      by_cases hrm : r ≤ m
      · have hmin : min r m = r := by omega
        rw [hmin, Nat.sub_self]
        rw [Nat.div_eq_of_lt (by omega), Nat.div_eq_of_lt (by omega)]
      · have hmin : min r m = m := by omega
        rw [hmin]
        congr 1
        omega

/-- Conversion preserves timestamps positionally. -/
lemma convert_map_timestamp (iso : Int → String) (l : List RawCandle) :
    (convertOhlcvToDict iso l).map OHLCVData.timestamp = l.map RawCandle.ts := by
  simp only [convertOhlcvToDict, List.map_map]
  rfl

/-- Every converted record's `datetime` is `iso8601` of its own
timestamp. -/
lemma convert_all_datetime (iso : Int → String) (l : List RawCandle) :
    (convertOhlcvToDict iso l).all
      (fun rec => rec.datetime == iso rec.timestamp) = true := by
  induction l with
  | nil => rfl
  | cons a t ih => simpa [convertOhlcvToDict] using ih

/-- In a strictly spaced ascending chain, every later element is at
least `a + d`. -/
lemma ascSpacedB_ge (d : Int) (hd : 0 < d) :
    ∀ (t : List Int) (a : Int), ascSpacedB d (a :: t) = true →
      ∀ x ∈ t, a + d ≤ x := by
  intro t
  induction t with
  | nil => simp
  | cons b t' ih =>
    intro a h x hx
    simp only [ascSpacedB, Bool.and_eq_true, beq_iff_eq] at h
    obtain ⟨rfl, h2⟩ := h
    rcases List.mem_cons.mp hx with rfl | hx'
    · exact le_refl _
    · have := ih (a + d) (by simpa [ascSpacedB] using h2) x hx'
      omega

/-- Filtering a strictly spaced ascending candle list by an upper bound
keeps a prefix, so it stays strictly spaced ascending. -/
lemma ascSpacedB_filter (d : Int) (hd : 0 < d) (u : Int) :
    ∀ l : List RawCandle, ascSpacedB d (l.map RawCandle.ts) = true →
      ascSpacedB d ((filterByUntil l u).map RawCandle.ts) = true := by
  intro l
  induction l with
  | nil => intro _; rfl
  | cons a t ih =>
    intro h
    by_cases ha : a.ts ≤ u
    · cases t with
      | nil => simp [filterByUntil, ha, ascSpacedB]
      | cons b t' =>
        simp only [List.map_cons, ascSpacedB, Bool.and_eq_true, beq_iff_eq] at h
        obtain ⟨hb, h2⟩ := h
        by_cases hbu : b.ts ≤ u
        · have hrec := ih (by simpa [ascSpacedB] using h2)
          have hfb : filterByUntil (b :: t') u = b :: filterByUntil t' u := by
            simp [filterByUntil, hbu]
          have hfa : filterByUntil (a :: b :: t') u =
              a :: filterByUntil (b :: t') u := by
            simp [filterByUntil, ha, hbu]
          rw [hfa, hfb]
          rw [hfb] at hrec
          simp only [List.map_cons, ascSpacedB, Bool.and_eq_true, beq_iff_eq]
          exact ⟨hb, by simpa [ascSpacedB] using hrec⟩
        · have hge := ascSpacedB_ge d hd (t'.map RawCandle.ts) b.ts
            (by simpa [ascSpacedB] using h2)
          have hft : filterByUntil (b :: t') u = [] := by
            rw [filterByUntil, List.filter_eq_nil_iff]
            intro x hx
            rcases List.mem_cons.mp hx with rfl | hx'
            · simpa using hbu
            · have : b.ts + d ≤ x.ts := hge x.ts (List.mem_map_of_mem _ hx')
              simp only [decide_eq_true_eq]
              omega
          have hfa : filterByUntil (a :: b :: t') u =
              a :: filterByUntil (b :: t') u := by
            simp [filterByUntil, ha, hbu]
          rw [hfa, hft]
          rfl
    · cases t with
      | nil => simp [filterByUntil, ha, ascSpacedB]
      | cons b t' =>
        simp only [List.map_cons, ascSpacedB, Bool.and_eq_true, beq_iff_eq] at h
        obtain ⟨hb, h2⟩ := h
        have hge := ascSpacedB_ge d hd (t'.map RawCandle.ts) b.ts
          (by simpa [ascSpacedB] using h2)
        have hall : filterByUntil (a :: b :: t') u = [] := by
          rw [filterByUntil, List.filter_eq_nil_iff]
          intro x hx
          rcases List.mem_cons.mp hx with rfl | hx'
          · simpa using ha
          · rcases List.mem_cons.mp hx' with rfl | hx''
            · simp only [decide_eq_true_eq]
              omega
            · have : b.ts + d ≤ x.ts := hge x.ts (List.mem_map_of_mem _ hx'')
              simp only [decide_eq_true_eq]
              omega
        rw [hall]
        rfl

/-- Invariant of the paginated until loop: only candles with
`ts ≤ until` are ever accumulated, so a successful run returns only
such candles. -/
lemma untilLoop_all_le (oracle : Oracle) (tfMs : Nat) (u : Int) :
    ∀ fuel idx maxL remaining allData cu,
      (∀ x ∈ allData, x.ts ≤ u) →
      ∀ res,
        (fetchPaginatedUntilLoop oracle tfMs u fuel idx maxL remaining allData cu).2 =
          Except.ok res →
        ∀ x ∈ res, x.ts ≤ u := by
  intro fuel
  induction fuel with
  | zero =>
    intro idx maxL remaining allData cu hall res hrun
    simp [fetchPaginatedUntilLoop] at hrun
  | succ fuel ih =>
    intro idx maxL remaining allData cu hall res hrun
    rw [fetchPaginatedUntilLoop] at hrun
    split at hrun
    · simp only [Except.ok.injEq] at hrun
      subst hrun
      exact hall
    · split at hrun
      · split at hrun
        · simp only [consTrace] at hrun
          exact ih _ _ _ _ _ hall res hrun
        · simp at hrun
      · simp only [Except.ok.injEq] at hrun
        subst hrun
        exact hall
      · rename_i c rest heq
        split at hrun
        · simp only [Except.ok.injEq] at hrun
          subst hrun
          exact hall
        · rename_i f rest_f hf
          simp only [consTrace] at hrun
          have hnew : ∀ x ∈ allData ++ f :: rest_f, x.ts ≤ u := by
            intro x hx
            rcases List.mem_append.mp hx with h | h
            · exact hall x h
            · have hxf : x ∈ filterByUntil (c :: rest) u := by rw [hf]; exact h
              have hm := List.mem_filter.mp hxf
              simpa using hm.2
          exact ih _ _ _ _ _ hnew res hrun

/-- Invariant of the latest loop: when every page fetch returns at most
the requested number of candles, the result cannot exceed the starting
accumulation plus `remaining`. -/
lemma latestLoop_length_le (oracle : Oracle) (tfMs : Nat)
    (hc : ∀ i call l, oracle i call = Except.ok l → l.length ≤ call.limit) :
    ∀ fuel idx maxL remaining allData cs res,
      (fetchPaginatedLatestLoop oracle tfMs fuel idx maxL remaining allData cs).2 =
        Except.ok res →
      res.length ≤ allData.length + remaining := by
  intro fuel
  induction fuel with
  | zero =>
    intro idx maxL remaining allData cs res hrun
    simp [fetchPaginatedLatestLoop] at hrun
  | succ fuel ih =>
    intro idx maxL remaining allData cs res hrun
    rw [fetchPaginatedLatestLoop] at hrun
    split at hrun
    · simp only [Except.ok.injEq] at hrun
      subst hrun
      omega
    · rename_i h0
      split at hrun
      · split at hrun
        · simp only [consTrace] at hrun
          exact ih _ _ _ _ _ res hrun
        · simp at hrun
      · simp only [Except.ok.injEq] at hrun
        subst hrun
        omega
      · rename_i c rest heq
        simp only [consTrace] at hrun
        have hih := ih _ _ _ _ _ res hrun
        have hlen := hc _ _ _ heq
        simp only [fetchSinglePageCall] at hlen
        rw [List.length_append] at hih
        omega

/-- Invariant of the until loop: same length bound as the latest loop
(the filtered page is no longer than the fetched page). -/
lemma untilLoop_length_le (oracle : Oracle) (tfMs : Nat) (u : Int)
    (hc : ∀ i call l, oracle i call = Except.ok l → l.length ≤ call.limit) :
    ∀ fuel idx maxL remaining allData cu res,
      (fetchPaginatedUntilLoop oracle tfMs u fuel idx maxL remaining allData cu).2 =
        Except.ok res →
      res.length ≤ allData.length + remaining := by
  intro fuel
  induction fuel with
  | zero =>
    intro idx maxL remaining allData cu res hrun
    simp [fetchPaginatedUntilLoop] at hrun
  | succ fuel ih =>
    intro idx maxL remaining allData cu res hrun
    rw [fetchPaginatedUntilLoop] at hrun
    split at hrun
    · simp only [Except.ok.injEq] at hrun
      subst hrun
      omega
    · rename_i h0
      split at hrun
      · split at hrun
        · simp only [consTrace] at hrun
          exact ih _ _ _ _ _ res hrun
        · simp at hrun
      · simp only [Except.ok.injEq] at hrun
        subst hrun
        omega
      · rename_i c rest heq
        split at hrun
        · simp only [Except.ok.injEq] at hrun
          subst hrun
          omega
        · rename_i f rest_f hf
          simp only [consTrace] at hrun
          have hih := ih _ _ _ _ _ res hrun
          have hlen := hc _ _ _ heq
          simp only [fetchSinglePageCall] at hlen
          have hfl : (f :: rest_f).length ≤ (c :: rest).length := by
            rw [← hf]
            exact List.length_filter_le _ _
          rw [List.length_append] at hih
          omega

/-- When every page fetch answers with exactly the requested number of
candles, the latest loop's trace requests exactly the spec-predicted
page sizes. -/
lemma latestLoop_trace_limits (oracle : Oracle) (tfMs : Nat)
    (hx : ∀ i call, 0 < call.limit →
      ∃ l, oracle i call = Except.ok l ∧ l.length = call.limit) :
    ∀ fuel idx maxL remaining allData cs,
      remaining + 1 ≤ fuel → 0 < maxL →
      ((fetchPaginatedLatestLoop oracle tfMs fuel idx maxL remaining allData cs).1).map
          PageCall.limit = specPageSizes remaining maxL := by
  intro fuel
  induction fuel with
  | zero =>
    intro idx maxL remaining allData cs hfuel hm
    omega
  | succ fuel ih =>
    intro idx maxL remaining allData cs hfuel hm
    by_cases h0 : remaining = 0
    · subst h0
      rw [fetchPaginatedLatestLoop]
      simp [specPageSizes, specPageSizesAux]
    · obtain ⟨l, hok, hlen⟩ := hx idx (fetchSinglePageCall (min remaining maxL) cs)
        (by simp only [fetchSinglePageCall]; omega)
      simp only [fetchSinglePageCall] at hlen
      cases l with
      | nil =>
        exfalso
        simp only [List.length_nil] at hlen
        omega
      | cons c rest =>
        rw [fetchPaginatedLatestLoop]
        simp only [h0, if_false, hok, consTrace, List.map_cons]
        rw [specPageSizes_eq remaining maxL hm]
        simp only [h0, if_false]
        congr 1
        have hlen' : (c :: rest).length = min remaining maxL := hlen
        rw [hlen']
        exact ih (idx + 1) maxL (remaining - min remaining maxL) (allData ++ c :: rest)
          (some (c.ts - (tfMs : Int))) (by omega) hm

/-- Inversion of a successful mapped result. -/
lemma map_ok_result (f : List RawCandle → List OHLCVData) (e : Except Unit (List RawCandle))
    (res : List OHLCVData) (h : e.map f = Except.ok res) :
    ∃ raw, e = Except.ok raw ∧ res = f raw := by
  cases e with
  | error u => simp [Except.map] at h
  | ok raw =>
    simp only [Except.map, Except.ok.injEq] at h
    exact ⟨raw, rfl, h.symm⟩

/-- Any successful paginated result is bounded by `total_limit` when
each page fetch returns at most the requested number of candles. -/
lemma paginated_length_le (oracle : Oracle) (iso : Int → String)
    (ex tf : String) (total_limit : Nat) (untilT : Option Int) (res : List OHLCVData)
    (hc : ∀ i call l, oracle i call = Except.ok l → l.length ≤ call.limit)
    (hrun : (fetchOhlcvPaginated oracle iso ex tf total_limit untilT).2 = Except.ok res) :
    res.length ≤ total_limit := by
  rcases untilT with _ | u
  · simp only [fetchOhlcvPaginated] at hrun
    obtain ⟨raw, hraw, rfl⟩ := map_ok_result _ _ res hrun
    have hb := latestLoop_length_le oracle (getTimeframeMs tf) hc (total_limit + 2) 0
      (getExchangeMaxLimit ex) total_limit [] none raw hraw
    simp only [convertOhlcvToDict, List.length_map]
    simpa using hb
  · by_cases h0 : u = 0
    · subst h0
      simp only [fetchOhlcvPaginated, if_pos rfl] at hrun
      obtain ⟨raw, hraw, rfl⟩ := map_ok_result _ _ res hrun
      have hb := latestLoop_length_le oracle (getTimeframeMs tf) hc (total_limit + 2) 0
        (getExchangeMaxLimit ex) total_limit [] none raw hraw
      simp only [convertOhlcvToDict, List.length_map]
      simpa using hb
    · simp only [fetchOhlcvPaginated, h0, if_false] at hrun
      obtain ⟨raw, hraw, rfl⟩ := map_ok_result _ _ res hrun
      have hb := untilLoop_length_le oracle (getTimeframeMs tf) u hc (total_limit + 2) 0
        (getExchangeMaxLimit ex) total_limit [] u raw hraw
      simp only [convertOhlcvToDict, List.length_map]
      simpa using hb

end CryptoFetcher

namespace CryptoFetcher

/-- C4: in until mode (a present, nonzero `until`), every candle in a
successful result has timestamp ≤ `until`: the single-page path filters
the fetched page, and the paginated path filters every page before
accumulating it. -/
theorem C4_until_upper_bound (oracle : Oracle) (iso : Int → String)
    (ex sym tf : String) (limit : Nat) (u : Int) (res : List OHLCVData)
    (hu : u ≠ 0)
    (hrun : (fetch_ohlcv oracle iso ex sym tf limit (some u)).2 = Except.ok res) :
    res.all (fun c => decide (c.timestamp ≤ u)) = true := by
  rw [fetch_ohlcv] at hrun
  split at hrun
  · simp only [fetchOhlcvPaginated, hu, if_false] at hrun
    obtain ⟨raw, hraw, rfl⟩ := map_ok_result _ _ res hrun
    have hall := untilLoop_all_le oracle (getTimeframeMs tf) u (limit + 2) 0
      (getExchangeMaxLimit ex) limit [] u (by simp) raw hraw
    rw [List.all_eq_true]
    intro c hc
    simp only [convertOhlcvToDict, List.mem_map] at hc
    obtain ⟨x, hx, rfl⟩ := hc
    simpa using hall x hx
  · simp only [hu, if_false] at hrun
    obtain ⟨raw, hraw, rfl⟩ := map_ok_result _ _ res hrun
    rw [List.all_eq_true]
    intro c hc
    simp only [convertOhlcvToDict, List.mem_map] at hc
    obtain ⟨x, hx, rfl⟩ := hc
    have hxf := (List.mem_filter.mp hx).2
    simpa using hxf

/-- Witness for C4: a single-page until-mode request on `bybit` with
`limit = 5`, `until = 7200000`; the single fetched candle at 3600000 is
kept and satisfies the bound. -/
theorem C4_until_upper_bound_witness :
    (fetch_ohlcv c4Oracle defaultIso "bybit" "BTC/USD" "1h" 5 (some 7200000)).2 =
      Except.ok [⟨3600000, "t", 1, 2, 3, 4, 5⟩] ∧
    ([(⟨3600000, "t", 1, 2, 3, 4, 5⟩ : OHLCVData)]).all
      (fun c => decide (c.timestamp ≤ 7200000)) = true := by
  refine ⟨rfl, ?_⟩
  exact C4_until_upper_bound c4Oracle defaultIso "bybit" "BTC/USD" "1h" 5 7200000
    [⟨3600000, "t", 1, 2, 3, 4, 5⟩] (by decide) rfl

/-- C8: when `total_limit` exceeds the exchange's PageLimit and every
page fetch returns exactly the requested number of candles, the trace of
page fetches requests exactly `min(remaining, PageLimit)` candles per
page and its length is `ceil(total_limit / PageLimit)`; in particular
the predicted sizes for 2500 over PageLimit 1000 are
`[1000, 1000, 500]`. -/
theorem C8_page_fetch_count (oracle : Oracle) (iso : Int → String)
    (ex sym tf : String) (limit : Nat)
    (hgt : getExchangeMaxLimit ex < limit)
    (hx : ∀ i call, 0 < call.limit →
      ∃ l, oracle i call = Except.ok l ∧ l.length = call.limit) :
    ((fetch_ohlcv oracle iso ex sym tf limit none).1).map PageCall.limit =
      specPageSizes limit (getExchangeMaxLimit ex) ∧
    ((fetch_ohlcv oracle iso ex sym tf limit none).1).length =
      (limit + getExchangeMaxLimit ex - 1) / getExchangeMaxLimit ex ∧
    specPageSizes 2500 1000 = [1000, 1000, 500] := by
  have hm := maxLimit_pos ex
  have htr : (fetch_ohlcv oracle iso ex sym tf limit none).1 =
      (fetchPaginatedLatestLoop oracle (getTimeframeMs tf) (limit + 2) 0
        (getExchangeMaxLimit ex) limit [] none).1 := by
    simp [fetch_ohlcv, fetchOhlcvPaginated, hgt]
  have hmap := latestLoop_trace_limits oracle (getTimeframeMs tf) hx (limit + 2) 0
    (getExchangeMaxLimit ex) limit [] none (by omega) hm
  refine ⟨by rw [htr]; exact hmap, ?_, by decide⟩
  rw [htr]
  have hlen := congrArg List.length hmap
  rw [List.length_map] at hlen
  rw [hlen]
  exact specPageSizes_length (getExchangeMaxLimit ex) hm limit limit (le_refl _)

/-- Witness for C8: `bybit` (PageLimit 200) with `total_limit = 450` and
a fully compliant oracle issues pages `[200, 200, 50]`, three fetches. -/
theorem C8_page_fetch_count_witness :
    ((fetch_ohlcv c8Oracle defaultIso "bybit" "BTC/USD" "1h" 450 none).1).map
      PageCall.limit = specPageSizes 450 200 ∧
    ((fetch_ohlcv c8Oracle defaultIso "bybit" "BTC/USD" "1h" 450 none).1).length = 3 := by
  have h := C8_page_fetch_count c8Oracle defaultIso "bybit" "BTC/USD" "1h" 450
    (by decide)
    (fun i call hc =>
      ⟨List.replicate call.limit ⟨0, 0, 0, 0, 0, 0⟩, rfl, by simp⟩)
  have e : getExchangeMaxLimit "bybit" = 200 := rfl
  rw [e] at h
  exact ⟨h.1, h.2.1.trans (by norm_num)⟩

/-- C7 amended: pagination stops early without raising — returning what
was accumulated — when a page fetch returns an empty sequence, or, in
until mode, when filtering a page by `until` removes all its records; a
page returning fewer (but at least one) candles than requested does not
stop pagination: the loop continues with `remaining` reduced by the
page's length. -/
theorem C7_amended_stop_conditions (oracle : Oracle) (tfMs : Nat) (u : Int)
    (fuel idx max_limit remaining : Nat) (all_data : List RawCandle)
    (cs : Option Int) (cu : Int)
    (hr : remaining ≠ 0) :
    (oracle idx (fetchSinglePageCall (min remaining max_limit) cs) = Except.ok [] →
      fetchPaginatedLatestLoop oracle tfMs (fuel + 1) idx max_limit remaining all_data cs =
        ([fetchSinglePageCall (min remaining max_limit) cs], Except.ok all_data)) ∧
    (∀ c rest, oracle idx (fetchSinglePageCall (min remaining max_limit) cs) =
        Except.ok (c :: rest) →
      fetchPaginatedLatestLoop oracle tfMs (fuel + 1) idx max_limit remaining all_data cs =
        consTrace (fetchSinglePageCall (min remaining max_limit) cs)
          (fetchPaginatedLatestLoop oracle tfMs fuel (idx + 1) max_limit
            (remaining - (c :: rest).length) (all_data ++ c :: rest)
            (some (c.ts - (tfMs : Int))))) ∧
    (0 < cu →
      oracle idx (fetchSinglePageCall (min remaining max_limit)
        (some (cu - ((min remaining max_limit) * tfMs : Nat)))) = Except.ok [] →
      fetchPaginatedUntilLoop oracle tfMs u (fuel + 1) idx max_limit remaining all_data cu =
        ([fetchSinglePageCall (min remaining max_limit)
            (some (cu - ((min remaining max_limit) * tfMs : Nat)))], Except.ok all_data)) ∧
    (∀ c rest, 0 < cu →
      oracle idx (fetchSinglePageCall (min remaining max_limit)
        (some (cu - ((min remaining max_limit) * tfMs : Nat)))) = Except.ok (c :: rest) →
      filterByUntil (c :: rest) u = [] →
      fetchPaginatedUntilLoop oracle tfMs u (fuel + 1) idx max_limit remaining all_data cu =
        ([fetchSinglePageCall (min remaining max_limit)
            (some (cu - ((min remaining max_limit) * tfMs : Nat)))], Except.ok all_data)) := by
  refine ⟨fun h => ?_, fun c rest h => ?_, fun hcu h => ?_, fun c rest hcu h hf => ?_⟩
  · rw [fetchPaginatedLatestLoop]
    simp [hr, h]
  · rw [fetchPaginatedLatestLoop]
    simp [hr, h]
  · have hg : ¬ (remaining = 0 ∨ cu ≤ 0) := by omega
    rw [fetchPaginatedUntilLoop, if_neg hg, h]
  · have hg : ¬ (remaining = 0 ∨ cu ≤ 0) := by omega
    rw [fetchPaginatedUntilLoop, if_neg hg, h]
    simp only [hf]

/-- Witness for the amended C7, at concrete inputs for each of the four
conjuncts: empty latest page stops; a 1-candle page for a 100-candle
request continues; empty until page stops; fully filtered until page
stops. -/
theorem C7_amended_stop_conditions_witness :
    fetchPaginatedLatestLoop zeroOracle 3600000 1 0 200 100 [] none =
      ([{ limit := 100, since := none }], Except.ok []) ∧
    fetchPaginatedLatestLoop c4Oracle 3600000 2 0 200 100 [] none =
      consTrace { limit := 100, since := none }
        (fetchPaginatedLatestLoop c4Oracle 3600000 1 1 200 99
          [⟨3600000, 1, 2, 3, 4, 5⟩] (some 0)) ∧
    fetchPaginatedUntilLoop zeroOracle 3600000 7200000 1 0 200 100 [] 7200000 =
      ([{ limit := 100, since := some (-352800000) }], Except.ok []) ∧
    fetchPaginatedUntilLoop lateOracle 3600000 7200000 1 0 200 100 [] 7200000 =
      ([{ limit := 100, since := some (-352800000) }], Except.ok []) := by
  refine ⟨?_, ?_, ?_, ?_⟩
  · have h := (C7_amended_stop_conditions zeroOracle 3600000 7200000 0 0 200 100 []
      none 7200000 (by decide)).1 rfl
    simpa [fetchSinglePageCall, sinceParam] using h
  · have h := (C7_amended_stop_conditions c4Oracle 3600000 7200000 1 0 200 100 []
      none 7200000 (by decide)).2.1 ⟨3600000, 1, 2, 3, 4, 5⟩ [] rfl
    simpa [fetchSinglePageCall, sinceParam] using h
  · have h := (C7_amended_stop_conditions zeroOracle 3600000 7200000 0 0 200 100 []
      none 7200000 (by decide)).2.2.1 (by decide) rfl
    simpa [fetchSinglePageCall, sinceParam] using h
  · have h := (C7_amended_stop_conditions lateOracle 3600000 7200000 0 0 200 100 []
      none 7200000 (by decide)).2.2.2 ⟨9999999999, 0, 0, 0, 0, 0⟩ [] (by decide) rfl
      (by decide)
    simpa [fetchSinglePageCall, sinceParam] using h

/-- C3 amended: in multi-page latest mode the first page is fetched with
`since` absent, and after a page whose oldest (first) timestamp is `t0`,
the loop continues with `current_since = t0 - timeframe_duration_ms`
(one timeframe, omitted from the params when the value is 0) and the
page appended after the accumulated data in fetch order — the engine
does not merge pages into ascending order. -/
theorem C3_amended_since_step (oracle : Oracle) (tfMs : Nat)
    (fuel idx max_limit remaining : Nat) (all_data : List RawCandle) (cs : Option Int)
    (c : RawCandle) (rest : List RawCandle)
    (hr : remaining ≠ 0)
    (hpage : oracle idx (fetchSinglePageCall (min remaining max_limit) cs) =
      Except.ok (c :: rest)) :
    fetchPaginatedLatestLoop oracle tfMs (fuel + 1) idx max_limit remaining all_data cs =
      consTrace (fetchSinglePageCall (min remaining max_limit) cs)
        (fetchPaginatedLatestLoop oracle tfMs fuel (idx + 1) max_limit
          (remaining - (c :: rest).length) (all_data ++ c :: rest)
          (some (c.ts - (tfMs : Int)))) ∧
    (fetchSinglePageCall (min remaining max_limit) none).since = none := by
  constructor
  · rw [fetchPaginatedLatestLoop]
    simp [hr, hpage]
  · rfl

/-- Witness for the amended C3: after a first page `[3600000000]`
fetched without `since`, the loop continues with
`current_since = 3600000000 - 3600000 = 3596400000` and the page
appended to the (empty) accumulation. -/
theorem C3_amended_since_step_witness :
    fetchPaginatedLatestLoop c3Oracle 3600000 2 0 200 201 [] none =
      consTrace { limit := 200, since := none }
        (fetchPaginatedLatestLoop c3Oracle 3600000 1 1 200 200
          [⟨3600000000, 0, 0, 0, 0, 0⟩] (some 3596400000)) ∧
    ({ limit := 200, since := none } : PageCall).since = none := by
  have h := C3_amended_since_step c3Oracle 3600000 1 0 200 201 [] none
    ⟨3600000000, 0, 0, 0, 0, 0⟩ [] (by decide) rfl
  constructor
  · have h1 := h.1
    simpa [fetchSinglePageCall, sinceParam] using h1
  · rfl

/-- C5 amended: the paginated path applies no truncation step; the
result length stays ≤ `total_limit` because pages request
`min(remaining, PageLimit)` and, when every page fetch returns at most
the requested count, the accumulation cannot overshoot; every record is
the conversion of a raw candle, with `datetime = iso8601(timestamp)`. -/
theorem C5_amended_postprocessing (oracle : Oracle) (iso : Int → String)
    (ex tf : String) (total_limit : Nat) (untilT : Option Int) (res : List OHLCVData)
    (hc : ∀ i call l, oracle i call = Except.ok l → l.length ≤ call.limit)
    (hrun : (fetchOhlcvPaginated oracle iso ex tf total_limit untilT).2 = Except.ok res) :
    res.length ≤ total_limit ∧
    res.all (fun rec => rec.datetime == iso rec.timestamp) = true := by
  refine ⟨paginated_length_le oracle iso ex tf total_limit untilT res hc hrun, ?_⟩
  rcases untilT with _ | u
  · simp only [fetchOhlcvPaginated] at hrun
    obtain ⟨raw, -, rfl⟩ := map_ok_result _ _ res hrun
    exact convert_all_datetime iso raw
  · by_cases h0 : u = 0
    · subst h0
      simp only [fetchOhlcvPaginated, if_pos rfl] at hrun
      obtain ⟨raw, -, rfl⟩ := map_ok_result _ _ res hrun
      exact convert_all_datetime iso raw
    · simp only [fetchOhlcvPaginated, h0, if_false] at hrun
      obtain ⟨raw, -, rfl⟩ := map_ok_result _ _ res hrun
      exact convert_all_datetime iso raw

/-- Witness for the amended C5: a paginated request for 300 on `bybit`
against the empty oracle returns an empty result, within the bound and
with the datetime property. -/
theorem C5_amended_postprocessing_witness :
    (fetchOhlcvPaginated zeroOracle defaultIso "bybit" "1h" 300 none).2 =
      Except.ok ([] : List OHLCVData) ∧
    (([] : List OHLCVData).length ≤ 300 ∧
      (([] : List OHLCVData)).all
        (fun rec => rec.datetime == defaultIso rec.timestamp) = true) := by
  refine ⟨rfl, ?_⟩
  exact C5_amended_postprocessing zeroOracle defaultIso "bybit" "1h" 300 none []
    (fun i call l h => by
      simp only [zeroOracle, Except.ok.injEq] at h
      simp [← h])
    rfl

/-- C1 amended: every successful result has length ≤ `total_limit`
provided each page fetch returns at most the requested count; on the
single-page paths, a strictly ascending, uniformly spaced fetched page
yields a strictly ascending, uniformly spaced result (in until mode the
filter keeps a prefix); across pages of the paginated path no such
ordering is guaranteed (see the counterexample). -/
theorem C1_amended_invariants (oracle : Oracle) (iso : Int → String)
    (ex sym tf : String) (limit : Nat) :
    (∀ untilT res,
      (∀ i call l, oracle i call = Except.ok l → l.length ≤ call.limit) →
      (fetch_ohlcv oracle iso ex sym tf limit untilT).2 = Except.ok res →
      res.length ≤ limit) ∧
    (∀ page res, limit ≤ getExchangeMaxLimit ex →
      oracle 0 { limit := limit, since := none } = Except.ok page →
      ascSpacedB (getTimeframeMs tf) (page.map RawCandle.ts) = true →
      (fetch_ohlcv oracle iso ex sym tf limit none).2 = Except.ok res →
      ascSpacedB (getTimeframeMs tf) (res.map OHLCVData.timestamp) = true) ∧
    (∀ u page res, limit ≤ getExchangeMaxLimit ex → u ≠ 0 →
      oracle 0 { limit := limit, since := some (u - (limit * getTimeframeMs tf : Nat)) } = Except.ok page →
      ascSpacedB (getTimeframeMs tf) (page.map RawCandle.ts) = true →
      (fetch_ohlcv oracle iso ex sym tf limit (some u)).2 = Except.ok res →
      ascSpacedB (getTimeframeMs tf) (res.map OHLCVData.timestamp) = true) := by
  refine ⟨fun untilT res hc hrun => ?_, fun page res hle ho hasc hrun => ?_,
    fun u page res hle hu ho hasc hrun => ?_⟩
  · rw [fetch_ohlcv.eq_def] at hrun
    split at hrun
    · exact paginated_length_le oracle iso ex tf limit untilT res hc hrun
    · rcases untilT with _ | u
      · obtain ⟨raw, hraw, rfl⟩ := map_ok_result _ _ res hrun
        have := hc 0 _ raw hraw
        simpa [convertOhlcvToDict] using this
      · by_cases h0 : u = 0
        · subst h0
          simp only [if_pos rfl] at hrun
          obtain ⟨raw, hraw, rfl⟩ := map_ok_result _ _ res hrun
          have := hc 0 _ raw hraw
          simpa [convertOhlcvToDict] using this
        · simp only [h0, if_false] at hrun
          obtain ⟨raw, hraw, rfl⟩ := map_ok_result _ _ res hrun
          have hb := hc 0 _ raw hraw
          have hfl : (filterByUntil raw u).length ≤ raw.length :=
            List.length_filter_le _ _
          simp only [convertOhlcvToDict, List.length_map]
          simp only at hb
          omega
  · rw [fetch_ohlcv.eq_def] at hrun
    rw [if_neg (not_lt.mpr hle)] at hrun
    obtain ⟨raw, hraw, rfl⟩ := map_ok_result _ _ res hrun
    rw [ho] at hraw
    simp only [Except.ok.injEq] at hraw
    subst hraw
    rw [convert_map_timestamp]
    exact hasc
  · rw [fetch_ohlcv.eq_def] at hrun
    rw [if_neg (not_lt.mpr hle)] at hrun
    simp only [hu, if_false] at hrun
    obtain ⟨raw, hraw, rfl⟩ := map_ok_result _ _ res hrun
    rw [ho] at hraw
    simp only [Except.ok.injEq] at hraw
    subst hraw
    rw [convert_map_timestamp]
    exact ascSpacedB_filter (getTimeframeMs tf) (by exact_mod_cast tfms_pos tf) u page hasc

/-- Witness for the amended C1: the empty oracle's result satisfies the
length bound, and a 3-candle ascending page yields ascending results on
both single-page paths. -/
theorem C1_amended_invariants_witness :
    ([] : List OHLCVData).length ≤ 5 ∧
    ascSpacedB 3600000
      ((convertOhlcvToDict defaultIso (ascPage 0 3600000 3)).map
        OHLCVData.timestamp) = true ∧
    ascSpacedB 3600000
      ((convertOhlcvToDict defaultIso
          (filterByUntil (ascPage 0 3600000 3) 7200000)).map
        OHLCVData.timestamp) = true := by
  refine ⟨?_, ?_, ?_⟩
  · exact (C1_amended_invariants zeroOracle defaultIso "bybit" "BTC/USD" "1h" 5).1
      none []
      (fun i call l h => by
        simp only [zeroOracle, Except.ok.injEq] at h
        simp [← h])
      rfl
  · exact (C1_amended_invariants c1wOracle defaultIso "bybit" "BTC/USD" "1h" 5).2.1
      (ascPage 0 3600000 3) (convertOhlcvToDict defaultIso (ascPage 0 3600000 3))
      (by decide) rfl (by decide) rfl
  · exact (C1_amended_invariants c1wOracle defaultIso "bybit" "BTC/USD" "1h" 5).2.2
      7200000 (ascPage 0 3600000 3)
      (convertOhlcvToDict defaultIso (filterByUntil (ascPage 0 3600000 3) 7200000))
      (by decide) (by decide) rfl (by decide) rfl

end CryptoFetcher

namespace CryptoFetcher

/-- C2: for `total_limit ≤ PageLimit` the engine issues exactly one page
fetch: in latest mode (`until` absent) with no `since` key and
`limit = total_limit`; in until mode (`until` present and nonzero, the
branch the code's truthiness test selects) with
`since = until - total_limit * timeframe_ms` and `limit = total_limit`. -/
theorem C2_single_page_call (oracle : Oracle) (iso : Int → String)
    (ex sym tf : String) (limit : Nat) (untilT : Option Int)
    (hlim : limit ≤ getExchangeMaxLimit ex) :
    (untilT = none →
      (fetch_ohlcv oracle iso ex sym tf limit untilT).1 =
        [{ limit := limit, since := none }]) ∧
    (∀ u : Int, untilT = some u → u ≠ 0 →
      (fetch_ohlcv oracle iso ex sym tf limit untilT).1 =
        [{ limit := limit, since := some (u - (limit * getTimeframeMs tf : Nat)) }]) := by
  have hnot : ¬ (getExchangeMaxLimit ex < limit) := not_lt.mpr hlim
  constructor
  · rintro rfl
    simp [fetch_ohlcv, hnot]
  · rintro u rfl hu
    simp [fetch_ohlcv, hnot, hu]

/-- Witness for C2 at a concrete input: `binance` (PageLimit 1000),
`limit = 100`, `timeframe = 1h`, and `until = 1700000000000` in until
mode; `since = 1700000000000 - 100 * 3600000 = 1699640000000`. -/
theorem C2_single_page_call_witness :
    (fetch_ohlcv zeroOracle defaultIso "binance" "BTC/USD" "1h" 100 none).1 =
      [{ limit := 100, since := none }] ∧
    (fetch_ohlcv zeroOracle defaultIso "binance" "BTC/USD" "1h" 100
        (some 1700000000000)).1 =
      [{ limit := 100, since := some 1699640000000 }] := by
  constructor
  · exact (C2_single_page_call zeroOracle defaultIso "binance" "BTC/USD" "1h" 100 none
      (by decide)).1 rfl
  · have h := (C2_single_page_call zeroOracle defaultIso "binance" "BTC/USD" "1h" 100
      (some 1700000000000) (by decide)).2 1700000000000 rfl (by decide)
    simpa using h

/-- C9: because both optional values are tested for truthiness, a call
with `until = 0` is indistinguishable from a call with `until` absent
(both the single-page dispatch and the paginated dispatch take the
latest branch), and `_fetch_single_page` with `since = 0` omits the
`since` parameter exactly as with `since = None`. -/
theorem C9_zero_is_falsy (oracle : Oracle) (iso : Int → String)
    (ex sym tf : String) (limit : Nat) :
    fetch_ohlcv oracle iso ex sym tf limit (some 0) =
      fetch_ohlcv oracle iso ex sym tf limit none ∧
    ∀ page_limit : Nat, fetchSinglePageCall page_limit (some 0) =
      fetchSinglePageCall page_limit none := by
  constructor
  · by_cases hm : getExchangeMaxLimit ex < limit <;>
      simp [fetch_ohlcv, fetchOhlcvPaginated, hm]
  · intro page_limit
    simp [fetchSinglePageCall, sinceParam]

/-- C10: every timeframe string outside the eight configured keys falls
back to the default of `60 * 60 * 1000 = 3600000` milliseconds. -/
theorem C10_timeframe_default (tf : String)
    (h : tf ∉ ["1m", "5m", "15m", "30m", "1h", "4h", "1d", "1w"]) :
    getTimeframeMs tf = 3600000 := by
  simp only [List.mem_cons, not_or, List.not_mem_nil] at h
  obtain ⟨h1, h2, h3, h4, h5, h6, h7, h8, -⟩ := h
  simp [getTimeframeMs, TIMEFRAME_MS, List.lookup,
    beq_eq_false_iff_ne.mpr h1, beq_eq_false_iff_ne.mpr h2, beq_eq_false_iff_ne.mpr h3,
    beq_eq_false_iff_ne.mpr h4, beq_eq_false_iff_ne.mpr h5, beq_eq_false_iff_ne.mpr h6,
    beq_eq_false_iff_ne.mpr h7, beq_eq_false_iff_ne.mpr h8]

/-- Witness for C10 at the concrete unconfigured timeframe `2h`. -/
theorem C10_timeframe_default_witness : getTimeframeMs "2h" = 3600000 :=
  C10_timeframe_default "2h" (by decide)

/-- C6: in the latest-mode loop, a page-fetch failure at page size > 50
sets `max_limit` to 50 and retries that window, the retried call
requesting exactly 50; if the retried fetch also fails the error
propagates (the retried size is ≤ 50, so there is no second retry); a
failure at page size ≤ 50 propagates immediately with no retry. -/
theorem C6_retry_policy (oracle : Oracle) (tfMs : Nat)
    (fuel idx max_limit remaining : Nat) (all_data : List RawCandle) (cs : Option Int)
    (hr : remaining ≠ 0)
    (herr : oracle idx (fetchSinglePageCall (min remaining max_limit) cs) =
      Except.error ()) :
    (50 < min remaining max_limit →
      fetchPaginatedLatestLoop oracle tfMs (fuel + 2) idx max_limit remaining all_data cs =
        consTrace (fetchSinglePageCall (min remaining max_limit) cs)
          (fetchPaginatedLatestLoop oracle tfMs (fuel + 1) (idx + 1) 50
            remaining all_data cs) ∧
      min remaining 50 = 50) ∧
    (50 < min remaining max_limit →
      oracle (idx + 1) (fetchSinglePageCall 50 cs) = Except.error () →
      fetchPaginatedLatestLoop oracle tfMs (fuel + 2) idx max_limit remaining all_data cs =
        ([fetchSinglePageCall (min remaining max_limit) cs, fetchSinglePageCall 50 cs],
         Except.error ())) ∧
    (min remaining max_limit ≤ 50 →
      fetchPaginatedLatestLoop oracle tfMs (fuel + 2) idx max_limit remaining all_data cs =
        ([fetchSinglePageCall (min remaining max_limit) cs], Except.error ())) := by
  refine ⟨fun h50 => ?_, fun h50 herr2 => ?_, fun hle => ?_⟩
  · refine ⟨?_, by omega⟩
    show fetchPaginatedLatestLoop oracle tfMs (fuel + 1 + 1) idx max_limit remaining all_data cs = _
    simp [fetchPaginatedLatestLoop, hr, herr, retryWithSmallerLimit, h50]
  · have hm50 : min remaining 50 = 50 := by omega
    have h1 : fetchPaginatedLatestLoop oracle tfMs (fuel + 1 + 1) idx max_limit
        remaining all_data cs =
        consTrace (fetchSinglePageCall (min remaining max_limit) cs)
          (fetchPaginatedLatestLoop oracle tfMs (fuel + 1) (idx + 1) 50
            remaining all_data cs) := by
      simp [fetchPaginatedLatestLoop, hr, herr, retryWithSmallerLimit, h50]
    have h2 : fetchPaginatedLatestLoop oracle tfMs (fuel + 1) (idx + 1) 50
        remaining all_data cs = ([fetchSinglePageCall 50 cs], Except.error ()) := by
      simp only [fetchPaginatedLatestLoop, hm50]
      simp [hr, herr2, retryWithSmallerLimit]
    show fetchPaginatedLatestLoop oracle tfMs (fuel + 1 + 1) idx max_limit
        remaining all_data cs = _
    rw [h1, h2]
    simp [consTrace]
  · show fetchPaginatedLatestLoop oracle tfMs (fuel + 1 + 1) idx max_limit remaining all_data cs = _
    simp only [fetchPaginatedLatestLoop]
    simp [hr, herr, retryWithSmallerLimit, Nat.not_lt.mpr hle]

/-- Witness for C6: with 100 candles remaining, a failure at page size
100 (> 50) is retried once at size 50 and the second failure propagates;
with `max_limit = 40`, the failure at size 40 propagates immediately. -/
theorem C6_retry_policy_witness :
    fetchPaginatedLatestLoop errOracle 3600000 3 0 1000 100 [] none =
      ([{ limit := 100, since := none }, { limit := 50, since := none }],
       Except.error ()) ∧
    fetchPaginatedLatestLoop errOracle 3600000 3 0 40 100 [] none =
      ([{ limit := 40, since := none }], Except.error ()) := by
  constructor
  · have h := (C6_retry_policy errOracle 3600000 1 0 1000 100 [] none
      (by decide) rfl).2.1 (by decide) rfl
    simpa [fetchSinglePageCall, sinceParam] using h
  · have h := (C6_retry_policy errOracle 3600000 1 0 40 100 [] none
      (by decide) rfl).2.2 (by decide)
    simpa [fetchSinglePageCall, sinceParam] using h

/-- C3 is false on the code: after a first page whose oldest timestamp
is `t0 = 3600000000` and whose requested size was 200, the second page
fetch is issued with `since = t0 - 3600000` (one timeframe duration),
not `t0 - 200 * 3600000` as the claim states. -/
theorem C3_counterexample :
    (fetch_ohlcv c3Oracle defaultIso "bybit" "BTC/USD" "1h" 201 none).1 =
      [{ limit := 200, since := none }, { limit := 200, since := some 3596400000 }] ∧
    (3596400000 : Int) ≠ 3600000000 - 200 * 3600000 := by
  exact ⟨rfl, by decide⟩

/-- C7 is false on the code: the first page fetch requests 200 candles
and receives only one, yet pagination does not stop — a second page
fetch is issued (the loop only breaks on an empty page). -/
theorem C7_counterexample :
    c7Oracle 0 { limit := 200, since := none } =
      Except.ok [⟨720000000, 0, 0, 0, 0, 0⟩] ∧
    (fetch_ohlcv c7Oracle defaultIso "bybit" "BTC/USD" "1h" 401 none).1 =
      [{ limit := 200, since := none }, { limit := 200, since := some 716400000 }] := by
  exact ⟨rfl, rfl⟩

set_option maxRecDepth 4000 in
/-- C5 is false on the code: there is no truncation step.  When a page
returns more candles than requested (300 for a requested 200), the
paginated result of a `total_limit = 201` request has 300 records, not
201. -/
theorem C5_counterexample :
    (okData (fetch_ohlcv c5Oracle defaultIso "bybit" "BTC/USD" "1h" 201 none).2).length =
      300 ∧
    ¬ (okData (fetch_ohlcv c5Oracle defaultIso "bybit" "BTC/USD" "1h" 201 none).2).length ≤
      201 := by
  have h : (okData (fetch_ohlcv c5Oracle defaultIso "bybit" "BTC/USD" "1h" 201
      none).2).length = 300 := rfl
  exact ⟨h, by omega⟩

set_option maxRecDepth 4000 in
/-- C1 is false on the code: a paginated latest-mode request for 201
candles against a contract-abiding exchange succeeds with 201 records,
but the returned timestamps are not ascending with uniform spacing —
the second (older) page is appended after the first, so the sequence
ends `..., 720000000 + 199 * 3600000, 716400000`. -/
theorem C1_counterexample :
    isOkResult (fetch_ohlcv c1Oracle defaultIso "bybit" "BTC/USD" "1h" 201 none).2 =
      true ∧
    (okData (fetch_ohlcv c1Oracle defaultIso "bybit" "BTC/USD" "1h" 201 none).2).length =
      201 ∧
    ascSpacedB 3600000
      ((okData (fetch_ohlcv c1Oracle defaultIso "bybit" "BTC/USD" "1h" 201 none).2).map
        OHLCVData.timestamp) = false := by
  exact ⟨rfl, rfl, rfl⟩

end CryptoFetcher
